import Mathlib

/-!
# Load-through cache: `lib/cache/loadable.go`

A shallow embedding of `LoadableCache[T]` and its methods: first run
sequentially, one call after the other, and then, for `Get`, as several calls
for one key whose steps interleave.

* The storage collaborator (`CacheInterface[T]`) and the load function are
  parameters.  The storage has a state of type `S`, which `Set`, `Delete`,
  `Invalidate` and `Clear` may change and which `Get` only reads; the load
  function has a state of its own, of type `L`, so that two invocations for
  one key may give different outcomes.
* A Go result pair `(T, error)` is a pair `T × Option E`; `none` is `nil`.
* Every call that leaves the coordinator (to the storage, to the load
  function, to the `singleflight` group, to the logger) is appended to a
  trace, so that "is invoked exactly once" and "is not invoked" are
  statements about the trace.
* The `singleflight.Group` is the list of tokens whose call is in flight.  A
  sequential run can only describe a `Do` whose token is not in flight (the
  caller becomes the executor); a `Do` on a token in flight would wait for
  another goroutine and is reported as `Outcome.waiting`.  The interleaved
  model (`stepGet`, `runGets`) lets a call join the call in flight and wake
  up with its results.
* The conversion of a `T` to `interface{}` and the type assertion
  `loadData.(T)` follow the Go language: a nil value of an interface type
  `T` converts to the nil interface, and asserting on the nil interface
  panics.
-/

namespace Loadable

/-- LoadableType represents the loadable cache type as a string value. -/
def LoadableType : String := "loadable"

/-- A Go result pair `(T, error)`; the error `none` is `nil`. -/
abbrev GoResult (T E : Type) := T × Option E

/-- Calls made by the coordinator, in the order in which they are made. -/
inductive Event (Ctx K T O I : Type) where
  | cacheGet (ctx : Ctx) (key : K)
  | cacheSet (ctx : Ctx) (key : K) (object : T) (options : List O)
  | cacheDelete (ctx : Ctx) (key : K)
  | cacheInvalidate (ctx : Ctx) (options : List I)
  | cacheClear (ctx : Ctx)
  | loadFunc (ctx : Ctx) (key : K)
  | groupDo (token : String)
  | debugf (ctx : Ctx) (data : T)
  deriving DecidableEq, Repr

/-- The event is an invocation of the load function. -/
def Event.isLoad {Ctx K T O I : Type} : Event Ctx K T O I → Bool
  | .loadFunc _ _ => true
  | _ => false

/-- The event is a storage `Set`. -/
def Event.isSet {Ctx K T O I : Type} : Event Ctx K T O I → Bool
  | .cacheSet _ _ _ _ => true
  | _ => false

/-- The event is a call of a storage operation that may change the storage. -/
def Event.isMutation {Ctx K T O I : Type} : Event Ctx K T O I → Bool
  | .cacheSet _ _ _ _ => true
  | .cacheDelete _ _ => true
  | .cacheInvalidate _ _ => true
  | .cacheClear _ => true
  | _ => false

/-- The event is an entry into the coalescing group. -/
def Event.isGroup {Ctx K T O I : Type} : Event Ctx K T O I → Bool
  | .groupDo _ => true
  | _ => false

/-- The storage collaborator, `CacheInterface[T]`, over a storage state `S`. -/
structure CacheInterface (Ctx K T E O I S : Type) where
  Get : Ctx → K → S → GoResult T E
  Set : Ctx → K → T → List O → S → Option E × S
  Delete : Ctx → K → S → Option E × S
  Invalidate : Ctx → List I → S → Option E × S
  Clear : Ctx → S → Option E × S

/-- The type `LoadFunction[T]`, over a state `L` of the data source. -/
abbrev LoadFunction (Ctx K T E L : Type) := Ctx → K → L → GoResult T E × L

/-- LoadableCache represents a cache that uses a function to load data.  The
third field of the Go struct, `loadGroup`, is a pointer to mutable state and
lives in `World.inFlight`. -/
structure LoadableCache (Ctx K T E O I S L : Type) where
  loadFunc : LoadFunction Ctx K T E L
  cache : CacheInterface Ctx K T E O I S

/-- Everything a method of the coordinator can read or change. -/
structure World (Ctx K T O I S L : Type) where
  store : S
  source : L
  inFlight : List String
  trace : List (Event Ctx K T O I)
  deriving DecidableEq, Repr

/-- Append one event to the trace. -/
def World.log {Ctx K T O I S L : Type} (w : World Ctx K T O I S L)
    (e : Event Ctx K T O I) : World Ctx K T O I S L :=
  { w with trace := w.trace ++ [e] }

/-- The state right after `NewLoadable`: a fresh `singleflight.Group` has no
call in flight, and nothing has been called yet. -/
def NewLoadable {Ctx K T O I S L : Type} (s : S) (l : L) : World Ctx K T O I S L :=
  { store := s, source := l, inFlight := [], trace := [] }

/-- What the Go language fixes for `Get`: the rendering of a key by
`fmt.Sprintf("%v", key)`, the zero value of the type argument `T`, and which
values of `T` are the nil interface value (none, unless `T` is an interface
type). -/
structure GoTypes (K T : Type) where
  sprintfV : K → String
  zero : T
  isNilInterface : T → Bool

/-- A value of type `interface{}` that was converted from a `T`. -/
inductive AnyValue (T : Type) where
  | nil
  | boxed (v : T)
  deriving DecidableEq, Repr

/-- The implicit conversion of a `T` to `interface{}` at `return data, ...`. -/
def GoTypes.toInterface {K T : Type} (go : GoTypes K T) (v : T) : AnyValue T :=
  if go.isNilInterface v then AnyValue.nil else AnyValue.boxed v

/-- The type assertion `x.(T)`; `none` is the run-time panic on a nil
interface.  A boxed value came from a `T`, so its dynamic type is `T` or
implements it. -/
def typeAssert {T : Type} : AnyValue T → Option T
  | .nil => none
  | .boxed v => some v

/-- How a call of `Get` ends. -/
inductive Outcome (T E : Type) where
  | ret (object : T) (err : Option E)
  | panicked
  | waiting
  deriving DecidableEq, Repr

/-- Result of `singleflight.Group.Do`, run sequentially. -/
inductive DoResult (T E : Type) where
  | done (val : AnyValue T) (err : Option E)
  | joined
  deriving DecidableEq, Repr

/-- Set sets a value in available caches. -/
def Set {Ctx K T E O I S L : Type} (c : LoadableCache Ctx K T E O I S L)
    (ctx : Ctx) (key : K) (object : T) (options : List O)
    (w : World Ctx K T O I S L) : Option E × World Ctx K T O I S L :=
  let w1 := w.log (.cacheSet ctx key object options)
  let r := c.cache.Set ctx key object options w1.store
  (r.1, { w1 with store := r.2 })

/-- Delete removes a value from cache. -/
def Delete {Ctx K T E O I S L : Type} (c : LoadableCache Ctx K T E O I S L)
    (ctx : Ctx) (key : K)
    (w : World Ctx K T O I S L) : Option E × World Ctx K T O I S L :=
  let w1 := w.log (.cacheDelete ctx key)
  let r := c.cache.Delete ctx key w1.store
  (r.1, { w1 with store := r.2 })

/-- Invalidate invalidates cache item from given options. -/
def Invalidate {Ctx K T E O I S L : Type} (c : LoadableCache Ctx K T E O I S L)
    (ctx : Ctx) (options : List I)
    (w : World Ctx K T O I S L) : Option E × World Ctx K T O I S L :=
  let w1 := w.log (.cacheInvalidate ctx options)
  let r := c.cache.Invalidate ctx options w1.store
  (r.1, { w1 with store := r.2 })

/-- Clear resets all cache data. -/
def Clear {Ctx K T E O I S L : Type} (c : LoadableCache Ctx K T E O I S L)
    (ctx : Ctx)
    (w : World Ctx K T O I S L) : Option E × World Ctx K T O I S L :=
  let w1 := w.log (.cacheClear ctx)
  let r := c.cache.Clear ctx w1.store
  (r.1, { w1 with store := r.2 })

/-- GetType returns the cache type. -/
def GetType : String := LoadableType

/-- Close releases nothing and returns `nil`. -/
def Close {E : Type} : Option E := none

/-- The function literal handed to `Do` (lines 47 to 63): load, and on success
log, put the data back in the cache, log again when that failed, and return
the data with a nil error. -/
def loadAndStore {Ctx K T E O I S L : Type} (go : GoTypes K T)
    (c : LoadableCache Ctx K T E O I S L) (ctx : Ctx) (key : K)
    (w : World Ctx K T O I S L) :
    (AnyValue T × Option E) × World Ctx K T O I S L :=
  let w1 := w.log (.loadFunc ctx key)
  let r := c.loadFunc ctx key w1.source
  let data := r.1.1
  let w2 := { w1 with source := r.2 }
  match r.1.2 with
  | some err => ((go.toInterface data, some err), w2)
  | none =>
    let w3 := w2.log (.debugf ctx data)
    let s := Set c ctx key data [] w3
    let w4 := match s.1 with
      | some _ => s.2.log (.debugf ctx data)
      | none => s.2
    ((go.toInterface data, none), w4)

/-- The call `c.loadGroup.Do(key, fn)` of `golang.org/x/sync/singleflight`, run
sequentially: a token in flight is joined (the caller waits for that call);
otherwise the call is registered, `fn` runs, the call is removed from the
group, and the results of `fn` are returned. -/
def Do {Ctx K T E O I S L : Type} (key : String)
    (fn : World Ctx K T O I S L → (AnyValue T × Option E) × World Ctx K T O I S L)
    (w : World Ctx K T O I S L) : DoResult T E × World Ctx K T O I S L :=
  let w1 := w.log (.groupDo key)
  if key ∈ w1.inFlight then (.joined, w1)
  else
    let r := fn { w1 with inFlight := key :: w1.inFlight }
    (.done r.1.1 r.1.2, { r.2 with inFlight := r.2.inFlight.erase key })

/-- The last line of `Get`, `return loadData.(T), err`: the assertion is
evaluated first and panics on the nil interface. -/
def assertReturn {T E : Type} (loadData : AnyValue T) (err : Option E) : Outcome T E :=
  match typeAssert loadData with
  | none => .panicked
  | some object => .ret object err

/-- Get returns the object stored in cache if it exists. -/
def Get {Ctx K T E O I S L : Type} (go : GoTypes K T)
    (c : LoadableCache Ctx K T E O I S L) (ctx : Ctx) (key : K)
    (w : World Ctx K T O I S L) : Outcome T E × World Ctx K T O I S L :=
  let w1 := w.log (.cacheGet ctx key)
  let r := c.cache.Get ctx key w1.store
  match r.2 with
  | none => (.ret r.1 none, w1)
  | some _ =>
    let d := Do (go.sprintfV key) (loadAndStore go c ctx key) w1
    match d.1 with
    | .joined => (.waiting, d.2)
    | .done loadData err => (assertReturn loadData err, d.2)

/-! ## Keys and their `%v` rendering -/

/-- The part of Go's `any` that is used for keys here: integers and strings. -/
inductive GoKey where
  | int (n : Int)
  | str (s : String)
  deriving DecidableEq, Repr

/-- Decimal rendering of an integer, as `strconv.FormatInt(n, 10)` gives it. -/
def formatInt : Int → String
  | Int.ofNat n => Nat.repr n
  | Int.negSucc n => "-" ++ Nat.repr (n + 1)

/-- The verb `%v` of `fmt.Sprintf` on a key: an integer in decimal, a string
as it is. -/
def sprintfV : GoKey → String
  | .int n => formatInt n
  | .str s => s

/-- The coalescing token that `Get` hands to `Do` for a key (line 47). -/
def loadToken (key : GoKey) : String := sprintfV key

/-- The type argument `T = int`: not an interface type, zero value `0`. -/
def goInt : GoTypes GoKey Int :=
  { sprintfV := sprintfV, zero := 0, isNilInterface := fun _ => false }

/-- The type argument `T = any` with integers as dynamic values: `none` is the
nil interface, which is also the zero value. -/
def goAny : GoTypes GoKey (Option Int) :=
  { sprintfV := sprintfV, zero := none, isNilInterface := Option.isNone }

/-! ## Example collaborators -/

/-- A storage that keeps its entries in an association list; a key without
an entry gives the error `"not found"`. -/
def mapCache {T : Type} (zero : T) :
    CacheInterface Unit GoKey T String Nat Nat (List (GoKey × T)) :=
  { Get := fun _ key s =>
      match s.lookup key with
      | some v => (v, none)
      | none => (zero, some "not found")
    Set := fun _ key object _ s => (none, (key, object) :: s)
    Delete := fun _ key s => (none, s.filter (fun e => decide (e.1 ≠ key)))
    Invalidate := fun _ _ s => (none, s)
    Clear := fun _ _ => (none, []) }

/-- A storage like `mapCache` whose `Set` always fails and stores nothing. -/
def readOnlyCache {T : Type} (zero : T) :
    CacheInterface Unit GoKey T String Nat Nat (List (GoKey × T)) :=
  { mapCache zero with Set := fun _ _ _ _ s => (some "read-only", s) }

/-- A load function that answers from a list of outcomes, the n-th invocation
with the n-th outcome (and with `dflt` once the list is used up); its state
is the number of invocations made so far. -/
def scriptedLoad {T : Type} (script : List (GoResult T String)) (dflt : GoResult T String) :
    LoadFunction Unit GoKey T String Nat :=
  fun _ _ n => (script.getD n dflt, n + 1)

/-! ## The specification's wording of a pass-through -/

/-- A direct pass-through as the specification words it: exactly one call of
the storage operation `op`, recorded as `ev`; the error of that call is the
result; the load function's state and the coalescing group are left as they
were. -/
def passThrough {Ctx K T E O I S L : Type} (ev : Event Ctx K T O I)
    (op : S → Option E × S) (w : World Ctx K T O I S L) :
    Option E × World Ctx K T O I S L :=
  ((op w.store).1,
    { store := (op w.store).2, source := w.source, inFlight := w.inFlight,
      trace := w.trace ++ [ev] })

/-- Value of a decimal digit character. -/
def digitVal (c : Char) : Nat := c.toNat - 48

/-- Read a list of decimal digits, most significant first, onto `acc`. -/
def readDigits (acc : Nat) (ds : List Char) : Nat :=
  ds.foldl (fun a c => 10 * a + digitVal c) acc

/-! ## Example instances of the coordinator -/

/-- The coordinator type of the examples with value type `T`. -/
abbrev ExCache (T : Type) :=
  LoadableCache Unit GoKey T String Nat Nat (List (GoKey × T)) Nat

/-- Value type `int`; every load succeeds with `42`. -/
def cacheIntLoading : ExCache Int :=
  { loadFunc := scriptedLoad [] (42, none), cache := mapCache 0 }

/-- Value type `int`; every load fails, and hands back `5` with its error. -/
def cacheIntFailing : ExCache Int :=
  { loadFunc := scriptedLoad [] (5, some "boom"), cache := mapCache 0 }

/-- Value type `any`; every load succeeds with the nil value. -/
def cacheAnyNil : ExCache (Option Int) :=
  { loadFunc := scriptedLoad [] (none, none), cache := mapCache none }

/-- Value type `any`; every load fails with `(nil, "not found upstream")`. -/
def cacheAnyNotFound : ExCache (Option Int) :=
  { loadFunc := scriptedLoad [] (none, some "not found upstream"), cache := mapCache none }

/-- Value type `any`; every load succeeds with the nil value and the storage
refuses every `Set`. -/
def cacheAnyReadOnly : ExCache (Option Int) :=
  { loadFunc := scriptedLoad [] (none, none), cache := readOnlyCache none }

/-- Value type `any`; the first load fails with `(7, "first")`, every later
one with `(nil, "second")`. -/
def cacheAnyRetry : ExCache (Option Int) :=
  { loadFunc := scriptedLoad [(some 7, some "first")] (none, some "second"),
    cache := mapCache none }

/-- Value type `any`; every load fails with `(nil, "timeout")`. -/
def cacheAnyTimeout : ExCache (Option Int) :=
  { loadFunc := scriptedLoad [] (none, some "timeout"), cache := mapCache none }


/-! ## Interleaved calls of `Get` for one key

Several goroutines call `Get(ctx, key)` with the same context and key.  A call
advances in steps, one for each point at which the source lets another
goroutine in: the storage check of line 42; the entry into `Do` on line 47,
where the call either registers itself in the group or joins the call in
flight; for the registered call, the invocation of the load function (line
49), then the rest of the function literal with the storage `Set` (lines 50
to 62), then the removal of the call from the group, which hands its results
to the calls that joined; for a call that joined, the wake-up with those
results.  Every call ends with the type assertion of line 65 on the results
it got. -/

/-- Where a call of `Get` stands. -/
inductive Phase (T E : Type) where
  | start
  | missed
  | executing
  | fetched (data : T) (err : Option E)
  | loaded (val : AnyValue T) (err : Option E)
  | joined (leader : Nat)
  | finished (o : Outcome T E)
  deriving DecidableEq, Repr

/-- The call is inside `Do`: registered, or waiting for the registered call. -/
def Phase.inDo {T E : Type} : Phase T E → Bool
  | .executing => true
  | .fetched _ _ => true
  | .loaded _ _ => true
  | .joined _ => true
  | _ => false

/-- The call is the one registered in the group. -/
def Phase.leading {T E : Type} : Phase T E → Bool
  | .executing => true
  | .fetched _ _ => true
  | .loaded _ _ => true
  | _ => false

/-- The call is registered and has invoked the load function. -/
def Phase.hasLoaded {T E : Type} : Phase T E → Bool
  | .fetched _ _ => true
  | .loaded _ _ => true
  | _ => false

/-- How far a registered call has come: `0` registered, `1` the load function
has answered, `2` the function literal has returned. -/
def Phase.rank {T E : Type} : Phase T E → Nat
  | .fetched _ _ => 1
  | .loaded _ _ => 2
  | _ => 0

/-- First part of the function literal: the invocation of the load function
(line 49). -/
def loadPart {Ctx K T E O I S L : Type}
    (c : LoadableCache Ctx K T E O I S L) (ctx : Ctx) (key : K)
    (w : World Ctx K T O I S L) : GoResult T E × World Ctx K T O I S L :=
  let w1 := w.log (.loadFunc ctx key)
  let r := c.loadFunc ctx key w1.source
  (r.1, { w1 with source := r.2 })

/-- Second part of the function literal (lines 50 to 62): hand back a failed
load as it is; after a successful one log, put the data back in the cache,
log again when that failed, and return the data with a nil error. -/
def storePart {Ctx K T E O I S L : Type} (go : GoTypes K T)
    (c : LoadableCache Ctx K T E O I S L) (ctx : Ctx) (key : K)
    (r : GoResult T E) (w : World Ctx K T O I S L) :
    (AnyValue T × Option E) × World Ctx K T O I S L :=
  match r.2 with
  | some err => ((go.toInterface r.1, some err), w)
  | none =>
    let w3 := w.log (.debugf ctx r.1)
    let s := Set c ctx key r.1 [] w3
    let w4 := match s.1 with
      | some _ => s.2.log (.debugf ctx r.1)
      | none => s.2
    ((go.toInterface r.1, none), w4)

/-- The function `f` with the value at `i` replaced by `x`. -/
def setAt {α : Type} (f : Nat → α) (i : Nat) (x : α) : Nat → α :=
  fun j => if j = i then x else f j

/-- The state shared by the calls: the world, the call most recently
registered in the group, the phase of every call, and the results of the
registered calls that are done. -/
structure Calls (Ctx K T E O I S L : Type) where
  world : World Ctx K T O I S L
  owner : Nat
  phase : Nat → Phase T E
  result : Nat → Option (AnyValue T × Option E)

/-- No call has begun. -/
def startCalls {Ctx K T E O I S L : Type} (w : World Ctx K T O I S L) :
    Calls Ctx K T E O I S L :=
  { world := w, owner := 0, phase := fun _ => Phase.start, result := fun _ => none }

/-- One step of the call number `i`. -/
def stepGet {Ctx K T E O I S L : Type} (go : GoTypes K T)
    (c : LoadableCache Ctx K T E O I S L) (ctx : Ctx) (key : K) (i : Nat)
    (st : Calls Ctx K T E O I S L) : Calls Ctx K T E O I S L :=
  match st.phase i with
  | .start =>
    let w1 := st.world.log (.cacheGet ctx key)
    let r := c.cache.Get ctx key w1.store
    match r.2 with
    | none =>
      { world := w1, owner := st.owner,
        phase := setAt st.phase i (.finished (.ret r.1 none)), result := st.result }
    | some _ =>
      { world := w1, owner := st.owner, phase := setAt st.phase i .missed,
        result := st.result }
  | .missed =>
    let w1 := st.world.log (.groupDo (go.sprintfV key))
    if go.sprintfV key ∈ w1.inFlight then
      { world := w1, owner := st.owner, phase := setAt st.phase i (.joined st.owner),
        result := st.result }
    else
      { world := { w1 with inFlight := go.sprintfV key :: w1.inFlight }, owner := i,
        phase := setAt st.phase i .executing, result := st.result }
  | .executing =>
    let r := loadPart c ctx key st.world
    { world := r.2, owner := st.owner, phase := setAt st.phase i (.fetched r.1.1 r.1.2),
      result := st.result }
  | .fetched data err =>
    let r := storePart go c ctx key (data, err) st.world
    { world := r.2, owner := st.owner, phase := setAt st.phase i (.loaded r.1.1 r.1.2),
      result := st.result }
  | .loaded val err =>
    { world := { st.world with inFlight := st.world.inFlight.erase (go.sprintfV key) },
      owner := st.owner,
      phase := setAt st.phase i (.finished (assertReturn val err)),
      result := setAt st.result i (some (val, err)) }
  | .joined leader =>
    match st.result leader with
    | none => st
    | some r =>
      { world := st.world, owner := st.owner,
        phase := setAt st.phase i (.finished (assertReturn r.1 r.2)), result := st.result }
  | .finished _ => st

/-- The calls advance in the order of the schedule, one step each time. -/
def runGets {Ctx K T E O I S L : Type} (go : GoTypes K T)
    (c : LoadableCache Ctx K T E O I S L) (ctx : Ctx) (key : K)
    (schedule : List Nat) (st : Calls Ctx K T E O I S L) : Calls Ctx K T E O I S L :=
  schedule.foldl (fun s i => stepGet go c ctx key i s) st

/-- Number of invocations of the load function recorded in the trace. -/
def loads {Ctx K T O I S L : Type} (w : World Ctx K T O I S L) : Nat :=
  (w.trace.filter Event.isLoad).length

/-- Value type `int`; the first load gives `1`, the second `2`, later ones `0`. -/
def cacheIntCounting : ExCache Int :=
  { loadFunc := scriptedLoad [(1, none), (2, none)] (0, none), cache := mapCache 0 }

/-- What holds of the calls `0 .. N-1` however they have been interleaved,
when they began in the world `w0`: the token is registered at most once;
calls outside the range have not begun; a call whose results are published
has finished; a registered call is the owner of the token in flight, and the
token in flight has a registered owner; a call that joined waits for a call
that is registered or done; and as long as no results are published, the
load function has been invoked once if a registered call has invoked it and
not at all otherwise. -/
structure Reach {Ctx K T E O I S L : Type} (tok : String) (N : Nat)
    (w0 : World Ctx K T O I S L) (st : Calls Ctx K T E O I S L) : Prop where
  flight : st.world.inFlight = w0.inFlight ∨ st.world.inFlight = tok :: w0.inFlight
  outside : ∀ i, N ≤ i → st.phase i = Phase.start ∧ st.result i = none
  done : ∀ i r, st.result i = some r → ∃ o, st.phase i = Phase.finished o
  lead : ∀ i, (st.phase i).leading = true → tok ∈ st.world.inFlight ∧ st.owner = i
  owned : tok ∈ st.world.inFlight → (st.phase st.owner).leading = true
  wait : ∀ i j, st.phase i = Phase.joined j →
    (st.phase j).leading = true ∨ ∃ r, st.result j = some r
  fresh : (∀ i, st.result i = none) → (∀ i, (st.phase i).hasLoaded = false) →
    loads st.world = loads w0
  once : (∀ i, st.result i = none) → ∀ i, (st.phase i).hasLoaded = true →
    loads st.world = loads w0 + 1

/-- The call `e` is registered and has come as far as `r`; the other calls
wait for it; the load function has been invoked once if `e` has invoked it,
and not at all otherwise. -/
structure Leading {Ctx K T E O I S L : Type} (N : Nat)
    (w0 : World Ctx K T O I S L) (e : Nat) (r : Nat)
    (st : Calls Ctx K T E O I S L) : Prop where
  leader : (st.phase e).leading = true
  rank : (st.phase e).rank = r
  others : ∀ i, i < N → i ≠ e → st.phase i = Phase.joined e
  pending : ∀ i, st.result i = none
  count : loads st.world = loads w0 + (if (st.phase e).hasLoaded = true then 1 else 0)

/-- The call `e` has published the results `val`, `err` and finished; each of
the other calls still waits for it or has finished with the same results. -/
structure Resolved {Ctx K T E O I S L : Type} (N : Nat)
    (w0 : World Ctx K T O I S L) (e : Nat) (val : AnyValue T) (err : Option E)
    (st : Calls Ctx K T E O I S L) : Prop where
  leader : st.phase e = Phase.finished (assertReturn val err)
  published : st.result e = some (val, err)
  others : ∀ i, i < N → i ≠ e →
    st.phase i = Phase.joined e ∨ st.phase i = Phase.finished (assertReturn val err)
  count : loads st.world = loads w0 + 1

/-- The calls `0 .. N-1` entered `Do` together, with the call `e` registered:
`e` is still registered, or it has resolved. -/
def Coalescing {Ctx K T E O I S L : Type} (N : Nat) (w0 : World Ctx K T O I S L)
    (e : Nat) (st : Calls Ctx K T E O I S L) : Prop :=
  (∃ r, Leading N w0 e r st) ∨ ∃ v err, Resolved N w0 e v err st

/-! ## Shared lemmas -/

section Lemmas

variable {Ctx K T E O I S L : Type}

/-- The last line of `Get` returns a value that is not the nil interface,
together with the error, unchanged. -/
theorem assertReturn_value (go : GoTypes K T) (v : T) (err : Option E)
    (h : go.isNilInterface v = false) :
    assertReturn (go.toInterface v) err = Outcome.ret v err := by
  simp [assertReturn, GoTypes.toInterface, typeAssert, h]

/-- The last line of `Get` panics on a value that is the nil interface. -/
theorem assertReturn_nil (go : GoTypes K T) (v : T) (err : Option E)
    (h : go.isNilInterface v = true) :
    assertReturn (go.toInterface v) err = Outcome.panicked := by
  simp [assertReturn, GoTypes.toInterface, typeAssert, h]

/-- A miss whose load fails: what `Get` does, in full. -/
theorem Get_miss_failed (go : GoTypes K T) (c : LoadableCache Ctx K T E O I S L)
    (ctx : Ctx) (key : K) (w : World Ctx K T O I S L) (o : T) (e0 : E) (d : T) (e : E) (l : L)
    (hget : c.cache.Get ctx key w.store = (o, some e0))
    (hidle : go.sprintfV key ∉ w.inFlight)
    (hload : c.loadFunc ctx key w.source = ((d, some e), l)) :
    Get go c ctx key w =
      (assertReturn (go.toInterface d) (some e),
       { store := w.store, source := l, inFlight := w.inFlight,
         trace := w.trace ++
           [Event.cacheGet ctx key, Event.groupDo (go.sprintfV key), Event.loadFunc ctx key] }) := by
  simp [Get, Do, loadAndStore, World.log, hget, hidle, hload]

/-- A miss whose load succeeds: what `Get` does, in full. -/
theorem Get_miss_loaded (go : GoTypes K T) (c : LoadableCache Ctx K T E O I S L)
    (ctx : Ctx) (key : K) (w : World Ctx K T O I S L) (o : T) (e0 : E) (v : T) (l : L)
    (hget : c.cache.Get ctx key w.store = (o, some e0))
    (hidle : go.sprintfV key ∉ w.inFlight)
    (hload : c.loadFunc ctx key w.source = ((v, none), l)) :
    Get go c ctx key w =
      (assertReturn (go.toInterface v) none,
       { store := (c.cache.Set ctx key v [] w.store).2, source := l, inFlight := w.inFlight,
         trace := w.trace ++
           [Event.cacheGet ctx key, Event.groupDo (go.sprintfV key), Event.loadFunc ctx key,
            Event.debugf ctx v, Event.cacheSet ctx key v []] ++
           (match (c.cache.Set ctx key v [] w.store).1 with
            | some _ => [Event.debugf ctx v]
            | none => []) }) := by
  simp [Get, Do, loadAndStore, Set, World.log, hget, hidle, hload]
  cases h : (c.cache.Set ctx key v [] w.store).1 <;> simp [h]

/-- A miss with a successful load of a value that is not the nil interface
returns that value with a nil error, after one load and one `Set` without
options, whatever the `Set` answered. -/
theorem Get_miss_loaded_value (go : GoTypes K T) (c : LoadableCache Ctx K T E O I S L)
    (ctx : Ctx) (key : K) (w : World Ctx K T O I S L) (o : T) (e0 : E) (v : T) (l : L)
    (hget : c.cache.Get ctx key w.store = (o, some e0))
    (hidle : go.sprintfV key ∉ w.inFlight)
    (hload : c.loadFunc ctx key w.source = ((v, none), l))
    (hval : go.isNilInterface v = false) :
    (Get go c ctx key w).1 = Outcome.ret v none ∧
    ((Get go c ctx key w).2.trace.drop w.trace.length).filter Event.isLoad
      = [Event.loadFunc ctx key] ∧
    ((Get go c ctx key w).2.trace.drop w.trace.length).filter Event.isMutation
      = [Event.cacheSet ctx key v []] ∧
    (Get go c ctx key w).2.store = (c.cache.Set ctx key v [] w.store).2 := by
  rw [Get_miss_loaded go c ctx key w o e0 v l hget hidle hload,
    assertReturn_value go v none hval]
  refine ⟨rfl, ?_, ?_, rfl⟩
  · cases (c.cache.Set ctx key v [] w.store).1 <;>
      simp [Event.isLoad, List.filter]
  · cases (c.cache.Set ctx key v [] w.store).1 <;>
      simp [Event.isMutation, List.filter]

/-- A miss whose load fails with data that is not the nil interface returns
the error of the load, and calls no storage operation that could change the
storage, which is left as it was. -/
theorem Get_miss_failed_value (go : GoTypes K T) (c : LoadableCache Ctx K T E O I S L)
    (ctx : Ctx) (key : K) (w : World Ctx K T O I S L) (o : T) (e0 : E) (d : T) (e : E) (l : L)
    (hget : c.cache.Get ctx key w.store = (o, some e0))
    (hidle : go.sprintfV key ∉ w.inFlight)
    (hload : c.loadFunc ctx key w.source = ((d, some e), l))
    (hval : go.isNilInterface d = false) :
    (Get go c ctx key w).1 = Outcome.ret d (some e) ∧
    ((Get go c ctx key w).2.trace.drop w.trace.length).filter Event.isMutation = [] ∧
    (Get go c ctx key w).2.store = w.store := by
  rw [Get_miss_failed go c ctx key w o e0 d e l hget hidle hload,
    assertReturn_value go d (some e) hval]
  refine ⟨rfl, ?_, rfl⟩
  simp [Event.isMutation, List.filter]

/-- Whatever a `Get` did, it leaves the coalescing group as it found it: the
call it registered is removed again, after a successful load and after a
failed one, and also when the final conversion panics. -/
theorem Get_inFlight (go : GoTypes K T) (c : LoadableCache Ctx K T E O I S L)
    (ctx : Ctx) (key : K) (w : World Ctx K T O I S L)
    (hidle : go.sprintfV key ∉ w.inFlight) :
    (Get go c ctx key w).2.inFlight = w.inFlight := by
  rcases hg : c.cache.Get ctx key w.store with ⟨o, _ | e0⟩
  · simp [Get, World.log, hg]
  · rcases hl : c.loadFunc ctx key w.source with ⟨⟨d, _ | e⟩, l⟩
    · rw [Get_miss_loaded go c ctx key w o e0 d l hg hidle hl]
    · rw [Get_miss_failed go c ctx key w o e0 d e l hg hidle hl]

/-- After a miss whose load failed, the next `Get` of the key misses again,
invokes the load function again, on the state the first invocation left, and
ends with the outcome of this second invocation. -/
theorem Get_after_failed_load (go : GoTypes K T) (c : LoadableCache Ctx K T E O I S L)
    (ctx : Ctx) (key : K) (w : World Ctx K T O I S L) (o : T) (e0 : E)
    (d1 : T) (e1 : E) (l1 : L) (d2 : T) (err2 : Option E) (l2 : L)
    (hget : c.cache.Get ctx key w.store = (o, some e0))
    (hidle : go.sprintfV key ∉ w.inFlight)
    (hload1 : c.loadFunc ctx key w.source = ((d1, some e1), l1))
    (hload2 : c.loadFunc ctx key l1 = ((d2, err2), l2)) :
    (Get go c ctx key (Get go c ctx key w).2).1 = assertReturn (go.toInterface d2) err2 ∧
    (Get go c ctx key (Get go c ctx key w).2).2.source = l2 ∧
    ((Get go c ctx key (Get go c ctx key w).2).2.trace.drop w.trace.length).filter Event.isLoad
      = [Event.loadFunc ctx key, Event.loadFunc ctx key] := by
  rw [Get_miss_failed go c ctx key w o e0 d1 e1 l1 hget hidle hload1]
  dsimp only
  cases err2 with
  | none =>
    rw [Get_miss_loaded go c ctx key
      { store := w.store, source := l1, inFlight := w.inFlight,
        trace := w.trace ++
          [Event.cacheGet ctx key, Event.groupDo (go.sprintfV key), Event.loadFunc ctx key] }
      o e0 d2 l2 hget hidle hload2]
    refine ⟨rfl, rfl, ?_⟩
    cases (c.cache.Set ctx key d2 [] w.store).1 <;> simp [Event.isLoad, List.filter]
  | some e2 =>
    rw [Get_miss_failed go c ctx key
      { store := w.store, source := l1, inFlight := w.inFlight,
        trace := w.trace ++
          [Event.cacheGet ctx key, Event.groupDo (go.sprintfV key), Event.loadFunc ctx key] }
      o e0 d2 e2 l2 hget hidle hload2]
    refine ⟨rfl, rfl, ?_⟩
    simp [Event.isLoad, List.filter]

end Lemmas

/-! ### The decimal rendering can be read back -/

theorem digitVal_digitChar (k : Nat) (h : k < 10) : digitVal (Nat.digitChar k) = k := by
  interval_cases k <;> rfl

theorem digitChar_ne_minus (k : Nat) (h : k < 10) : Nat.digitChar k ≠ '-' := by
  interval_cases k <;> decide

theorem readDigits_toDigitsCore (fuel : Nat) :
    ∀ (n : Nat) (ds : List Char), n < fuel →
      readDigits 0 (Nat.toDigitsCore 10 fuel n ds) = readDigits n ds := by
  induction fuel with
  | zero => intro n ds h; omega
  | succ f ih =>
    intro n ds h
    unfold Nat.toDigitsCore
    by_cases h0 : n / 10 = 0
    · simp only [h0, if_true]
      have hn : n % 10 = n := by omega
      have hv := digitVal_digitChar (n % 10) (Nat.mod_lt _ (by norm_num))
      rw [hn] at hv
      simp [readDigits, hn, hv]
    · simp only [h0, if_false]
      rw [ih (n / 10) _ (by omega)]
      simp only [readDigits, List.foldl_cons]
      rw [digitVal_digitChar (n % 10) (Nat.mod_lt _ (by norm_num)), Nat.div_add_mod]

theorem minus_not_mem_toDigitsCore (fuel : Nat) :
    ∀ (n : Nat) (ds : List Char), '-' ∉ ds → '-' ∉ Nat.toDigitsCore 10 fuel n ds := by
  induction fuel with
  | zero => intro n ds h; simpa [Nat.toDigitsCore] using h
  | succ f ih =>
    intro n ds h
    unfold Nat.toDigitsCore
    have hd : '-' ∉ Nat.digitChar (n % 10) :: ds := by
      intro hm
      rcases List.mem_cons.mp hm with h1 | h1
      · exact digitChar_ne_minus (n % 10) (Nat.mod_lt _ (by norm_num)) h1.symm
      · exact h h1
    by_cases h0 : n / 10 = 0
    · simp only [h0, if_true]; exact hd
    · simp only [h0, if_false]; exact ih _ _ hd

theorem repr_data (n : Nat) : (Nat.repr n).data = Nat.toDigits 10 n := rfl

theorem readDigits_repr (n : Nat) : readDigits 0 (Nat.repr n).data = n := by
  rw [repr_data]
  unfold Nat.toDigits
  rw [readDigits_toDigitsCore (n + 1) n [] (by omega)]
  rfl

theorem repr_injective : Function.Injective Nat.repr := by
  intro a b h
  have := congrArg (fun s => readDigits 0 s.data) h
  simpa [readDigits_repr] using this

theorem minus_not_mem_repr (n : Nat) : '-' ∉ (Nat.repr n).data := by
  rw [repr_data]
  exact minus_not_mem_toDigitsCore _ _ _ (by simp)

theorem minus_append_data (s : String) : ("-" ++ s).data = '-' :: s.data := by
  simp [String.data_append]

/-- Two integers with the same decimal rendering are equal. -/
theorem formatInt_injective : Function.Injective formatInt := by
  intro a b h
  cases a with
  | ofNat m =>
    cases b with
    | ofNat n => exact congrArg Int.ofNat (repr_injective h)
    | negSucc n =>
      exfalso
      have hd := congrArg String.data h
      simp only [formatInt, minus_append_data] at hd
      exact minus_not_mem_repr m (hd ▸ List.mem_cons_self _ _)
  | negSucc m =>
    cases b with
    | ofNat n =>
      exfalso
      have hd := congrArg String.data h
      simp only [formatInt, minus_append_data] at hd
      exact minus_not_mem_repr n (hd ▸ List.mem_cons_self _ _)
    | negSucc n =>
      have hd := congrArg String.data h
      simp only [formatInt, minus_append_data, List.cons.injEq, true_and] at hd
      have := repr_injective (String.ext hd)
      have hmn : m = n := by omega
      rw [hmn]

/-! ## Interleaved calls: what every schedule preserves -/

section Interleaving

variable {Ctx K T E O I S L : Type}

theorem setAt_same {α : Type} (f : Nat → α) (i : Nat) (x : α) : setAt f i x i = x := by
  simp [setAt]

theorem setAt_other {α : Type} (f : Nat → α) (i j : Nat) (x : α) (h : j ≠ i) :
    setAt f i x j = f j := by
  simp [setAt, h]

theorem hasLoaded_leading {q : Phase T E} (h : q.hasLoaded = true) : q.leading = true := by
  cases q <;> simp [Phase.hasLoaded, Phase.leading] at h ⊢

theorem not_leading_hasLoaded {q : Phase T E} (h : q.leading = false) :
    q.hasLoaded = false := by
  cases q <;> simp [Phase.hasLoaded, Phase.leading] at h ⊢

theorem leading_rank_le {q : Phase T E} : q.rank ≤ 2 := by
  cases q <;> simp [Phase.rank]

theorem loads_log (w : World Ctx K T O I S L) (e : Event Ctx K T O I)
    (h : e.isLoad = false) : loads (w.log e) = loads w := by
  simp [loads, World.log, List.filter_append, h]

/-- The function literal is its two parts, one after the other. -/
theorem loadAndStore_split (go : GoTypes K T) (c : LoadableCache Ctx K T E O I S L)
    (ctx : Ctx) (key : K) (w : World Ctx K T O I S L) :
    loadAndStore go c ctx key w
      = storePart go c ctx key (loadPart c ctx key w).1 (loadPart c ctx key w).2 := rfl

theorem loadPart_inFlight (c : LoadableCache Ctx K T E O I S L)
    (ctx : Ctx) (key : K) (w : World Ctx K T O I S L) :
    (loadPart c ctx key w).2.inFlight = w.inFlight := rfl

theorem loadPart_loads (c : LoadableCache Ctx K T E O I S L)
    (ctx : Ctx) (key : K) (w : World Ctx K T O I S L) :
    loads (loadPart c ctx key w).2 = loads w + 1 := by
  simp [loadPart, World.log, loads, List.filter_append, Event.isLoad, List.filter]

theorem storePart_inFlight (go : GoTypes K T) (c : LoadableCache Ctx K T E O I S L)
    (ctx : Ctx) (key : K) (r : GoResult T E) (w : World Ctx K T O I S L) :
    (storePart go c ctx key r w).2.inFlight = w.inFlight := by
  rcases r with ⟨d, _ | e⟩
  · simp only [storePart, World.log, Set]
    cases (c.cache.Set ctx key d [] w.store).1 <;> rfl
  · rfl

theorem storePart_loads (go : GoTypes K T) (c : LoadableCache Ctx K T E O I S L)
    (ctx : Ctx) (key : K) (r : GoResult T E) (w : World Ctx K T O I S L) :
    loads (storePart go c ctx key r w).2 = loads w := by
  rcases r with ⟨d, _ | e⟩
  · simp only [storePart, World.log, Set]
    cases (c.cache.Set ctx key d [] w.store).1 <;>
      simp [loads, List.filter_append, Event.isLoad, List.filter]
  · rfl

/-- One call that takes all its steps with no other call in between does what
`Get` does. -/
theorem runGets_alone (go : GoTypes K T) (c : LoadableCache Ctx K T E O I S L)
    (ctx : Ctx) (key : K) (i : Nat) (w : World Ctx K T O I S L)
    (hidle : go.sprintfV key ∉ w.inFlight) :
    (runGets go c ctx key [i, i, i, i, i] (startCalls w)).world = (Get go c ctx key w).2 ∧
    (runGets go c ctx key [i, i, i, i, i] (startCalls w)).phase i
      = Phase.finished (Get go c ctx key w).1 := by
  rcases hg : c.cache.Get ctx key w.store with ⟨o, _ | e0⟩
  · simp [runGets, stepGet, startCalls, setAt, Get, World.log, hg]
  · simp [runGets, stepGet, startCalls, setAt, Get, Do, World.log, hg, hidle,
      loadAndStore_split]

theorem runGets_append (go : GoTypes K T) (c : LoadableCache Ctx K T E O I S L)
    (ctx : Ctx) (key : K) (l1 l2 : List Nat) (st : Calls Ctx K T E O I S L) :
    runGets go c ctx key (l1 ++ l2) st = runGets go c ctx key l2 (runGets go c ctx key l1 st) := by
  simp [runGets, List.foldl_append]

theorem runGets_cons (go : GoTypes K T) (c : LoadableCache Ctx K T E O I S L)
    (ctx : Ctx) (key : K) (a : Nat) (l : List Nat) (st : Calls Ctx K T E O I S L) :
    runGets go c ctx key (a :: l) st = runGets go c ctx key l (stepGet go c ctx key a st) := rfl

theorem reach_start (tok : String) (N : Nat) (w0 : World Ctx K T O I S L)
    (hidle : tok ∉ w0.inFlight) :
    Reach tok N w0 (startCalls w0 : Calls Ctx K T E O I S L) where
  flight := Or.inl rfl
  outside := fun _ _ => ⟨rfl, rfl⟩
  done := fun i r h => by simp [startCalls] at h
  lead := fun i h => by simp [startCalls, Phase.leading] at h
  owned := fun h => absurd h hidle
  wait := fun i j h => by simp [startCalls] at h
  fresh := fun _ _ => rfl
  once := fun _ i h => by simp [startCalls, Phase.hasLoaded] at h

/-- A step of a call that is not registered, into a phase that is not
registered either, keeps what every schedule preserves. -/
theorem reach_quiet (tok : String) (N : Nat) (w0 : World Ctx K T O I S L)
    (st : Calls Ctx K T E O I S L) (h : Reach tok N w0 st) (i : Nat) (hi : i < N)
    (w1 : World Ctx K T O I S L) (p : Phase T E)
    (hfl : w1.inFlight = st.world.inFlight) (hld : loads w1 = loads st.world)
    (hq : (st.phase i).leading = false) (hpl : p.leading = false)
    (hpj : ∀ j, p = Phase.joined j →
      (st.phase j).leading = true ∨ ∃ r, st.result j = some r)
    (hfin : ∀ r, st.result i = some r → ∃ o, p = Phase.finished o) :
    Reach tok N w0
      { world := w1, owner := st.owner, phase := setAt st.phase i p, result := st.result } := by
  have hown : tok ∈ st.world.inFlight → st.owner ≠ i := by
    intro ht hoi
    have := h.owned ht
    rw [hoi, hq] at this
    exact Bool.false_ne_true this
  refine
    { flight := ?_, outside := ?_, done := ?_, lead := ?_, owned := ?_, wait := ?_,
      fresh := ?_, once := ?_ }
  · simpa [hfl] using h.flight
  · intro j hj
    have hji : j ≠ i := by omega
    simpa [setAt, hji] using h.outside j hj
  · intro j r hr
    by_cases hji : j = i
    · subst hji
      simpa [setAt] using hfin r hr
    · simpa [setAt, hji] using h.done j r hr
  · intro j hj
    by_cases hji : j = i
    · subst hji
      simp [setAt, hpl] at hj
    · simp only [setAt, hji, if_false] at hj
      simpa [hfl] using h.lead j hj
  · intro ht
    simp only [hfl] at ht
    simpa [setAt, hown ht] using h.owned ht
  · intro a b hab
    by_cases hai : a = i
    · subst hai
      simp only [setAt, if_true] at hab
      rcases hpj b hab with hb | hb
      · left
        have hbi : b ≠ a := by
          intro hbi
          rw [hbi, hq] at hb
          exact Bool.false_ne_true hb
        simpa [setAt, hbi] using hb
      · exact Or.inr hb
    · simp only [setAt, hai, if_false] at hab
      rcases h.wait a b hab with hb | hb
      · left
        have hbi : b ≠ i := by
          intro hbi
          rw [hbi, hq] at hb
          exact Bool.false_ne_true hb
        simpa [setAt, hbi] using hb
      · exact Or.inr hb
  · intro hres hno
    rw [hld]
    refine h.fresh hres ?_
    intro j
    by_cases hji : j = i
    · subst hji
      exact not_leading_hasLoaded hq
    · simpa [setAt, hji] using hno j
  · intro hres j hj
    rw [hld]
    by_cases hji : j = i
    · subst hji
      simp only [setAt, if_true] at hj
      rw [not_leading_hasLoaded hpl] at hj
      exact absurd hj (by simp)
    · simp only [setAt, hji, if_false] at hj
      exact h.once hres j hj

/-- A step of the registered call that leaves it registered keeps what every
schedule preserves, when it counts the invocation of the load function. -/
theorem reach_lead (tok : String) (N : Nat) (w0 : World Ctx K T O I S L)
    (st : Calls Ctx K T E O I S L) (h : Reach tok N w0 st) (i : Nat) (hi : i < N)
    (w1 : World Ctx K T O I S L) (p : Phase T E)
    (hfl : w1.inFlight = st.world.inFlight)
    (hq : (st.phase i).leading = true) (hpl : p.hasLoaded = true)
    (hld : loads w1 = loads st.world + (if (st.phase i).hasLoaded = true then 0 else 1)) :
    Reach tok N w0
      { world := w1, owner := st.owner, phase := setAt st.phase i p, result := st.result } := by
  have hl := h.lead i hq
  have hpl2 : p.leading = true := hasLoaded_leading hpl
  have honly : ∀ j, (st.phase j).leading = true → j = i :=
    fun j hj => (h.lead j hj).2.symm.trans hl.2
  have hnf : ∀ r, st.result i = some r → False := by
    intro r hr
    obtain ⟨o, ho⟩ := h.done i r hr
    rw [ho] at hq
    simp [Phase.leading] at hq
  refine
    { flight := ?_, outside := ?_, done := ?_, lead := ?_, owned := ?_, wait := ?_,
      fresh := ?_, once := ?_ }
  · simpa [hfl] using h.flight
  · intro j hj
    have hji : j ≠ i := by omega
    simpa [setAt, hji] using h.outside j hj
  · intro j r hr
    by_cases hji : j = i
    · subst hji
      exact (hnf r hr).elim
    · simpa [setAt, hji] using h.done j r hr
  · intro j hj
    by_cases hji : j = i
    · subst hji
      simpa [hfl] using hl
    · simp only [setAt, hji, if_false] at hj
      simpa [hfl] using h.lead j hj
  · intro _
    simp [hl.2, setAt, hpl2]
  · intro a b hab
    by_cases hai : a = i
    · subst hai
      simp only [setAt, if_true] at hab
      rw [hab] at hpl
      simp [Phase.hasLoaded] at hpl
    · simp only [setAt, hai, if_false] at hab
      rcases h.wait a b hab with hb | hb
      · left
        by_cases hbi : b = i
        · simp [setAt, hbi, hpl2]
        · simpa [setAt, hbi] using hb
      · exact Or.inr hb
  · intro _ hno
    have := hno i
    simp only [setAt_same, hpl] at this
    exact absurd this (by simp)
  · intro hres _ _
    rw [hld]
    cases hql : (st.phase i).hasLoaded with
    | true => simpa using h.once hres i hql
    | false =>
      have hfresh := h.fresh hres (fun a => by
        cases hal : (st.phase a).hasLoaded with
        | false => rfl
        | true =>
          have := honly a (hasLoaded_leading hal)
          rw [this, hql] at hal
          exact absurd hal (by simp))
      simp [hfresh]

/-- Every step of a call keeps what every schedule preserves. -/
theorem reach_step (go : GoTypes K T) (c : LoadableCache Ctx K T E O I S L)
    (ctx : Ctx) (key : K) (N : Nat) (w0 : World Ctx K T O I S L)
    (hidle : go.sprintfV key ∉ w0.inFlight) (st : Calls Ctx K T E O I S L)
    (h : Reach (go.sprintfV key) N w0 st) (i : Nat) (hi : i < N) :
    Reach (go.sprintfV key) N w0 (stepGet go c ctx key i st) := by
  cases hp : st.phase i with
  | start =>
    have hnf : ∀ r, st.result i = some r →
        ∃ o, (Phase.missed : Phase T E) = Phase.finished o := by
      intro r hr
      obtain ⟨o, ho⟩ := h.done i r hr
      rw [hp] at ho
      exact absurd ho (by simp)
    rcases hg : (c.cache.Get ctx key st.world.store) with ⟨o, _ | e0⟩
    · simp only [stepGet, hp, World.log, hg]
      exact reach_quiet _ N w0 st h i hi _ _ rfl
        (loads_log st.world _ rfl) (by simp [hp, Phase.leading]) rfl (by simp)
        (fun r _ => ⟨_, rfl⟩)
    · simp only [stepGet, hp, World.log, hg]
      exact reach_quiet _ N w0 st h i hi _ _ rfl
        (loads_log st.world _ rfl) (by simp [hp, Phase.leading]) rfl (by simp) hnf
  | missed =>
    have hnf : ∀ r, st.result i = some r → False := by
      intro r hr
      obtain ⟨o, ho⟩ := h.done i r hr
      rw [hp] at ho
      exact absurd ho (by simp)
    by_cases ht : go.sprintfV key ∈ st.world.inFlight
    · simp only [stepGet, hp, World.log, ht, if_true]
      exact reach_quiet _ N w0 st h i hi _ _ rfl
        (loads_log st.world _ rfl) (by simp [hp, Phase.leading]) rfl
        (fun j hj => by
          have : st.owner = j := by simpa using hj
          exact Or.inl (this ▸ h.owned ht))
        (fun r hr => (hnf r hr).elim)
    · simp only [stepGet, hp, World.log, ht, if_false]
      have hnl : ∀ j, (st.phase j).leading = true → False :=
        fun j hj => ht (h.lead j hj).1
      have hfl : st.world.inFlight = w0.inFlight := by
        rcases h.flight with hf | hf
        · exact hf
        · exact absurd (hf ▸ List.mem_cons_self _ _) ht
      refine
        { flight := ?_, outside := ?_, done := ?_, lead := ?_, owned := ?_, wait := ?_,
          fresh := ?_, once := ?_ }
      · right
        simp [hfl]
      · intro j hj
        have hji : j ≠ i := by omega
        simpa [setAt, hji] using h.outside j hj
      · intro j r hr
        by_cases hji : j = i
        · subst hji
          exact (hnf r hr).elim
        · simpa [setAt, hji] using h.done j r hr
      · intro j hj
        by_cases hji : j = i
        · subst hji
          exact ⟨List.mem_cons_self _ _, rfl⟩
        · simp only [setAt, hji, if_false] at hj
          exact (hnl j hj).elim
      · intro _
        simp [setAt, Phase.leading]
      · intro a b hab
        by_cases hai : a = i
        · subst hai
          simp [setAt] at hab
        · simp only [setAt, hai, if_false] at hab
          rcases h.wait a b hab with hb | hb
          · exact (hnl b hb).elim
          · exact Or.inr hb
      · intro hres hno
        have := h.fresh hres (fun j => by
          cases hjl : (st.phase j).hasLoaded with
          | false => rfl
          | true => exact (hnl j (hasLoaded_leading hjl)).elim)
        simpa [loads] using this
      · intro hres j hj
        by_cases hji : j = i
        · subst hji
          simp [setAt, Phase.hasLoaded] at hj
        · simp only [setAt, hji, if_false] at hj
          exact (hnl j (hasLoaded_leading hj)).elim
  | executing =>
    simp only [stepGet, hp]
    exact reach_lead _ N w0 st h i hi _ _ (loadPart_inFlight c ctx key st.world)
      (by simp [hp, Phase.leading]) rfl
      (by simp [hp, Phase.hasLoaded, loadPart_loads])
  | fetched data err =>
    simp only [stepGet, hp]
    exact reach_lead _ N w0 st h i hi _ _ (storePart_inFlight go c ctx key _ st.world)
      (by simp [hp, Phase.leading]) rfl
      (by simp [hp, Phase.hasLoaded, storePart_loads])
  | loaded val err =>
    simp only [stepGet, hp]
    have hl := h.lead i (by simp [hp, Phase.leading])
    have hfl : st.world.inFlight = go.sprintfV key :: w0.inFlight := by
      rcases h.flight with hf | hf
      · exact absurd (hf ▸ hl.1) hidle
      · exact hf
    refine
      { flight := ?_, outside := ?_, done := ?_, lead := ?_, owned := ?_, wait := ?_,
        fresh := ?_, once := ?_ }
    · left
      simp [hfl]
    · intro j hj
      have hji : j ≠ i := by omega
      simpa [setAt, hji] using h.outside j hj
    · intro j r hr
      by_cases hji : j = i
      · subst hji
        exact ⟨_, setAt_same _ _ _⟩
      · simp only [setAt, hji, if_false] at hr
        simpa [setAt, hji] using h.done j r hr
    · intro j hj
      by_cases hji : j = i
      · subst hji
        simp [setAt, Phase.leading] at hj
      · simp only [setAt, hji, if_false] at hj
        exact absurd ((h.lead j hj).2.symm.trans hl.2) hji
    · intro ht
      simp [hfl] at ht
      exact absurd ht hidle
    · intro a b hab
      by_cases hai : a = i
      · subst hai
        simp [setAt] at hab
      · simp only [setAt, hai, if_false] at hab
        right
        rcases h.wait a b hab with hb | hb
        · have hbi : b = i := (h.lead b hb).2.symm.trans hl.2
          exact ⟨_, by rw [hbi]; exact setAt_same _ _ _⟩
        · obtain ⟨r, hr⟩ := hb
          by_cases hbi : b = i
          · exact ⟨_, by rw [hbi]; exact setAt_same _ _ _⟩
          · exact ⟨r, by simpa [setAt, hbi] using hr⟩
    · intro hres _
      exact absurd (hres i) (by simp [setAt])
    · intro hres _ _
      exact absurd (hres i) (by simp [setAt])
  | joined j =>
    simp only [stepGet, hp]
    cases hr : st.result j with
    | none => exact h
    | some r =>
      exact reach_quiet _ N w0 st h i hi _ _ rfl rfl (by simp [hp, Phase.leading]) rfl
        (by simp) (fun _ _ => ⟨_, rfl⟩)
  | finished o =>
    simp only [stepGet, hp]
    exact h

theorem reach_run (go : GoTypes K T) (c : LoadableCache Ctx K T E O I S L)
    (ctx : Ctx) (key : K) (N : Nat) (w0 : World Ctx K T O I S L)
    (hidle : go.sprintfV key ∉ w0.inFlight) (l : List Nat) :
    ∀ (st : Calls Ctx K T E O I S L), Reach (go.sprintfV key) N w0 st →
      (∀ i ∈ l, i < N) → Reach (go.sprintfV key) N w0 (runGets go c ctx key l st) := by
  induction l with
  | nil => intro st h _; exact h
  | cons a l ih =>
    intro st h hl
    rw [runGets_cons]
    exact ih _ (reach_step go c ctx key N w0 hidle st h a (hl a (List.mem_cons_self _ _)))
      (fun i hi => hl i (List.mem_cons_of_mem _ hi))

/-- At a moment at which all the calls `0 .. N-1` are inside `Do`, one of them
is registered and all the others wait for it. -/
theorem entered_shape (tok : String) (N : Nat) (w0 : World Ctx K T O I S L)
    (st : Calls Ctx K T E O I S L) (h : Reach tok N w0 st) (hN : 0 < N)
    (hall : ∀ i, i < N → (st.phase i).inDo = true) :
    ∃ e, e < N ∧ ∃ r, Leading N w0 e r st := by
  have hres : ∀ i, st.result i = none := by
    intro i
    by_cases hi : i < N
    · cases hr : st.result i with
      | none => rfl
      | some r =>
        obtain ⟨o, ho⟩ := h.done i r hr
        have := hall i hi
        rw [ho] at this
        simp [Phase.inDo] at this
    · exact (h.outside i (by omega)).2
  have hlt : ∀ e, (st.phase e).leading = true → e < N := by
    intro e he
    by_contra hlt
    rw [(h.outside e (by omega)).1] at he
    simp [Phase.leading] at he
  have hjoin : ∀ i, i < N → (st.phase i).leading = true ∨
      ∃ j, st.phase i = Phase.joined j ∧ (st.phase j).leading = true := by
    intro i hi
    have hin := hall i hi
    cases hp : st.phase i with
    | start => rw [hp] at hin; simp [Phase.inDo] at hin
    | missed => rw [hp] at hin; simp [Phase.inDo] at hin
    | finished o => rw [hp] at hin; simp [Phase.inDo] at hin
    | executing => exact Or.inl (by simp [Phase.leading])
    | fetched d err => exact Or.inl (by simp [Phase.leading])
    | loaded v err => exact Or.inl (by simp [Phase.leading])
    | joined j =>
      rcases h.wait i j hp with hj | ⟨r, hr⟩
      · exact Or.inr ⟨j, rfl, hj⟩
      · rw [hres j] at hr
        exact absurd hr (by simp)
  have hlead : ∃ e, (st.phase e).leading = true := by
    rcases hjoin 0 hN with h0 | ⟨j, _, hj⟩
    · exact ⟨0, h0⟩
    · exact ⟨j, hj⟩
  obtain ⟨e, he⟩ := hlead
  have hown := (h.lead e he).2
  have honly : ∀ j, (st.phase j).leading = true → j = e :=
    fun j hj => (h.lead j hj).2.symm.trans hown
  refine ⟨e, hlt e he, (st.phase e).rank, he, rfl, ?_, hres, ?_⟩
  · intro i hi hie
    rcases hjoin i hi with hl | ⟨j, hj, hjl⟩
    · exact absurd (honly i hl) hie
    · rw [hj, honly j hjl]
  · cases hl : (st.phase e).hasLoaded with
    | true => simpa using h.once hres e hl
    | false =>
      have := h.fresh hres (fun a => by
        cases hal : (st.phase a).hasLoaded with
        | false => rfl
        | true =>
          have hae := honly a (hasLoaded_leading hal)
          rw [hae, hl] at hal
          exact absurd hal (by simp))
      simpa using this

theorem leading_step (go : GoTypes K T) (c : LoadableCache Ctx K T E O I S L)
    (ctx : Ctx) (key : K) (N : Nat) (w0 : World Ctx K T O I S L) (e r : Nat)
    (st : Calls Ctx K T E O I S L) (h : Leading N w0 e r st) (i : Nat) (hi : i < N) :
    (i = e → Leading N w0 e (r + 1) (stepGet go c ctx key i st) ∨
      ∃ v err, Resolved N w0 e v err (stepGet go c ctx key i st)) ∧
    (i ≠ e → stepGet go c ctx key i st = st) := by
  constructor
  · intro hie
    subst hie
    have hothers : ∀ (p : Phase T E) j, j < N → j ≠ i →
        setAt st.phase i p j = Phase.joined i := by
      intro p j hj hji
      simpa [setAt, hji] using h.others j hj hji
    have hl := h.leader
    have hr := h.rank
    have hc := h.count
    cases hp : st.phase i with
    | start => rw [hp] at hl; simp [Phase.leading] at hl
    | missed => rw [hp] at hl; simp [Phase.leading] at hl
    | joined j => rw [hp] at hl; simp [Phase.leading] at hl
    | finished o => rw [hp] at hl; simp [Phase.leading] at hl
    | executing =>
      left
      rw [hp] at hr hc
      simp only [stepGet, hp]
      refine ⟨?_, ?_, hothers _, h.pending, ?_⟩
      · simp [setAt, Phase.leading]
      · simp [setAt, Phase.rank] at hr ⊢
        omega
      · simp [setAt, Phase.hasLoaded, loadPart_loads] at hc ⊢
        omega
    | fetched d err =>
      left
      rw [hp] at hr hc
      simp only [stepGet, hp]
      refine ⟨?_, ?_, hothers _, h.pending, ?_⟩
      · simp [setAt, Phase.leading]
      · simp [setAt, Phase.rank] at hr ⊢
        omega
      · simp [setAt, Phase.hasLoaded, storePart_loads] at hc ⊢
        omega
    | loaded v err =>
      right
      rw [hp] at hc
      refine ⟨v, err, ?_⟩
      simp only [stepGet, hp]
      refine ⟨setAt_same _ _ _, setAt_same _ _ _, ?_, ?_⟩
      · intro j hj hji
        exact Or.inl (hothers _ j hj hji)
      · simpa [loads, Phase.hasLoaded] using hc
  · intro hie
    simp [stepGet, h.others i hi hie, h.pending e]

theorem resolved_step (go : GoTypes K T) (c : LoadableCache Ctx K T E O I S L)
    (ctx : Ctx) (key : K) (N : Nat) (w0 : World Ctx K T O I S L) (e : Nat)
    (v : AnyValue T) (err : Option E)
    (st : Calls Ctx K T E O I S L) (h : Resolved N w0 e v err st) (i : Nat) (hi : i < N) :
    Resolved N w0 e v err (stepGet go c ctx key i st) ∧
    (stepGet go c ctx key i st).phase i = Phase.finished (assertReturn v err) ∧
    ∀ j, st.phase j = Phase.finished (assertReturn v err) →
      (stepGet go c ctx key i st).phase j = Phase.finished (assertReturn v err) := by
  have hfin : st.phase i = Phase.finished (assertReturn v err) →
      stepGet go c ctx key i st = st := by
    intro hp
    simp [stepGet, hp]
  by_cases hp : st.phase i = Phase.finished (assertReturn v err)
  · rw [hfin hp]
    exact ⟨h, hp, fun j hj => hj⟩
  · have hie : i ≠ e := fun hie => hp (hie ▸ h.leader)
    have hj : st.phase i = Phase.joined e := by
      rcases h.others i hi hie with h1 | h1
      · exact h1
      · exact absurd h1 hp
    simp only [stepGet, hj, h.published]
    refine ⟨⟨?_, h.published, ?_, h.count⟩, setAt_same _ _ _, ?_⟩
    · simpa [setAt, Ne.symm hie] using h.leader
    · intro j hjN hje
      by_cases hji : j = i
      · right
        rw [hji]
        exact setAt_same _ _ _
      · simpa [setAt, hji] using h.others j hjN hje
    · intro j hjf
      by_cases hji : j = i
      · rw [hji]
        exact setAt_same _ _ _
      · simpa [setAt, hji] using hjf

theorem resolved_run (go : GoTypes K T) (c : LoadableCache Ctx K T E O I S L)
    (ctx : Ctx) (key : K) (N : Nat) (w0 : World Ctx K T O I S L) (e : Nat)
    (v : AnyValue T) (err : Option E) (l : List Nat) :
    ∀ (st : Calls Ctx K T E O I S L), Resolved N w0 e v err st → (∀ i ∈ l, i < N) →
      Resolved N w0 e v err (runGets go c ctx key l st) ∧
      ∀ j, (j ∈ l ∨ st.phase j = Phase.finished (assertReturn v err)) →
        (runGets go c ctx key l st).phase j = Phase.finished (assertReturn v err) := by
  induction l with
  | nil =>
    intro st h _
    refine ⟨h, fun j hj => ?_⟩
    rcases hj with hj | hj
    · simp at hj
    · exact hj
  | cons a l ih =>
    intro st h hl
    obtain ⟨h1, ha, hkeep⟩ :=
      resolved_step go c ctx key N w0 e v err st h a (hl a (List.mem_cons_self _ _))
    obtain ⟨h2, hall⟩ := ih _ h1 (fun i hi => hl i (List.mem_cons_of_mem _ hi))
    rw [runGets_cons]
    refine ⟨h2, fun j hj => hall j ?_⟩
    rcases hj with hj | hj
    · rcases List.mem_cons.mp hj with hja | hjl
      · exact Or.inr (hja ▸ ha)
      · exact Or.inl hjl
    · exact Or.inr (hkeep j hj)

theorem leading_run (go : GoTypes K T) (c : LoadableCache Ctx K T E O I S L)
    (ctx : Ctx) (key : K) (N : Nat) (w0 : World Ctx K T O I S L) (e : Nat) (l : List Nat) :
    ∀ (r : Nat) (st : Calls Ctx K T E O I S L), Leading N w0 e r st → (∀ i ∈ l, i < N) →
      (∃ r', Leading N w0 e r' (runGets go c ctx key l st) ∧ r ≤ r' ∧ (e ∈ l → r < r')) ∨
      ∃ v err, Resolved N w0 e v err (runGets go c ctx key l st) := by
  induction l with
  | nil => intro r st h _; exact Or.inl ⟨r, h, le_refl _, by simp⟩
  | cons a l ih =>
    intro r st h hl
    have hlt : ∀ i ∈ l, i < N := fun i hi => hl i (List.mem_cons_of_mem _ hi)
    obtain ⟨hyes, hno⟩ :=
      leading_step go c ctx key N w0 e r st h a (hl a (List.mem_cons_self _ _))
    rw [runGets_cons]
    by_cases hae : a = e
    · rcases hyes hae with h1 | ⟨v, err, h1⟩
      · rcases ih (r + 1) _ h1 hlt with ⟨r', h2, hle, _⟩ | h2
        · exact Or.inl ⟨r', h2, by omega, fun _ => by omega⟩
        · exact Or.inr h2
      · exact Or.inr ⟨v, err, (resolved_run go c ctx key N w0 e v err l _ h1 hlt).1⟩
    · rw [hno hae]
      rcases ih r st h hlt with ⟨r', h2, hle, hlt2⟩ | h2
      · refine Or.inl ⟨r', h2, hle, fun hel => hlt2 ?_⟩
        rcases List.mem_cons.mp hel with hea | hel2
        · exact absurd hea.symm hae
        · exact hel2
      · exact Or.inr h2

theorem coalescing_run (go : GoTypes K T) (c : LoadableCache Ctx K T E O I S L)
    (ctx : Ctx) (key : K) (N : Nat) (w0 : World Ctx K T O I S L) (e : Nat)
    (st : Calls Ctx K T E O I S L) (h : Coalescing N w0 e st)
    (l : List Nat) (hl : ∀ i ∈ l, i < N) :
    Coalescing N w0 e (runGets go c ctx key l st) := by
  rcases h with ⟨r, h⟩ | ⟨v, err, h⟩
  · rcases leading_run go c ctx key N w0 e l r st h hl with ⟨r', h1, _, _⟩ | h1
    · exact Or.inl ⟨r', h1⟩
    · exact Or.inr h1
  · exact Or.inr ⟨v, err, (resolved_run go c ctx key N w0 e v err l st h hl).1⟩

/-- A round in which the registered call takes a step brings it further: it
has resolved, or it has come as far as `k + 1` when it had come as far as
`k` before. -/
theorem coalescing_round (go : GoTypes K T) (c : LoadableCache Ctx K T E O I S L)
    (ctx : Ctx) (key : K) (N : Nat) (w0 : World Ctx K T O I S L) (e : Nat) (k : Nat)
    (st : Calls Ctx K T E O I S L)
    (h : (∃ r, k ≤ r ∧ Leading N w0 e r st) ∨ ∃ v err, Resolved N w0 e v err st)
    (l : List Nat) (hl : ∀ i ∈ l, i < N) (he : e ∈ l) :
    (∃ r, k + 1 ≤ r ∧ Leading N w0 e r (runGets go c ctx key l st)) ∨
      ∃ v err, Resolved N w0 e v err (runGets go c ctx key l st) := by
  rcases h with ⟨r, hk, h⟩ | ⟨v, err, h⟩
  · rcases leading_run go c ctx key N w0 e l r st h hl with ⟨r', h1, _, hlt⟩ | h1
    · exact Or.inl ⟨r', by have := hlt he; omega, h1⟩
    · exact Or.inr h1
  · exact Or.inr ⟨v, err, (resolved_run go c ctx key N w0 e v err l st h hl).1⟩

theorem leading_rank (N : Nat) (w0 : World Ctx K T O I S L) (e r : Nat)
    (st : Calls Ctx K T E O I S L) (h : Leading N w0 e r st) : r ≤ 2 := by
  rw [← h.rank]
  exact leading_rank_le

theorem coalescing_facts (N : Nat) (w0 : World Ctx K T O I S L) (e : Nat)
    (st : Calls Ctx K T E O I S L) (h : Coalescing N w0 e st) :
    loads st.world ≤ loads w0 + 1 ∧
    (∀ i, i < N → ∀ o, st.phase i = Phase.finished o → loads st.world = loads w0 + 1) ∧
    (∀ i j, i < N → j < N → ∀ oi oj, st.phase i = Phase.finished oi →
      st.phase j = Phase.finished oj → oi = oj) := by
  rcases h with ⟨r, h⟩ | ⟨v, err, h⟩
  · have hn : ∀ i, i < N → ∀ o, st.phase i ≠ Phase.finished o := by
      intro i hi o hfin
      by_cases hie : i = e
      · have hl := h.leader
        rw [← hie, hfin] at hl
        simp [Phase.leading] at hl
      · rw [h.others i hi hie] at hfin
        exact absurd hfin (by simp)
    refine ⟨?_, fun i hi o ho => absurd ho (hn i hi o),
      fun i j hi _ oi _ ho _ => absurd ho (hn i hi oi)⟩
    rw [h.count]
    split <;> omega
  · have hout : ∀ i, i < N → ∀ o, st.phase i = Phase.finished o → o = assertReturn v err := by
      intro i hi o ho
      by_cases hie : i = e
      · rw [hie, h.leader] at ho
        exact (Phase.finished.inj ho).symm
      · rcases h.others i hi hie with h1 | h1
        · rw [h1] at ho
          exact absurd ho (by simp)
        · rw [h1] at ho
          exact (Phase.finished.inj ho).symm
    exact ⟨by rw [h.count], fun _ _ _ _ => h.count,
      fun i j hi hj oi oj hoi hoj => (hout i hi oi hoi).trans (hout j hj oj hoj).symm⟩

end Interleaving

/-! ## The claims -/

section Claims

variable {Ctx K T E O I S L : Type}

/-- C1 (cache hit): when the storage `Get` answers `(v, nil)`, `Get` returns
`(v, nil)` and the only call made is that storage `Get`: the load function
is not invoked and its state is untouched, no storage `Set` is made and the
storage is unchanged, and the coalescing group is neither entered nor
changed. -/
theorem Get_hit (go : GoTypes K T) (c : LoadableCache Ctx K T E O I S L)
    (ctx : Ctx) (key : K) (w : World Ctx K T O I S L) (v : T)
    (h : c.cache.Get ctx key w.store = (v, none)) :
    Get go c ctx key w =
      (Outcome.ret v none,
       { store := w.store, source := w.source, inFlight := w.inFlight,
         trace := w.trace ++ [Event.cacheGet ctx key] }) := by
  simp [Get, World.log, h]

/-- Witness of C1: `"c"` holds `7` in the storage; `Get("c")` returns `7`. -/
theorem Get_hit_witness :
    cacheIntLoading.cache.Get () (GoKey.str "c") [(GoKey.str "c", 7)] = (7, none) ∧
    Get goInt cacheIntLoading () (GoKey.str "c")
        { store := [(GoKey.str "c", 7)], source := 0, inFlight := [], trace := [] } =
      (Outcome.ret 7 none,
       { store := [(GoKey.str "c", 7)], source := 0, inFlight := [],
         trace := [] ++ [Event.cacheGet () (GoKey.str "c")] }) :=
  ⟨by decide,
   Get_hit goInt cacheIntLoading () (GoKey.str "c")
     { store := [(GoKey.str "c", 7)], source := 0, inFlight := [], trace := [] } 7 (by decide)⟩

/-- C2 at `T = any`: the key misses, the load function answers `(nil, nil)`;
the load function is invoked once and the value is set once, without
options, but `Get` does not return `(nil, nil)`: it panics on its last
line. -/
theorem Get_loaded_nil_panics :
    cacheAnyNil.cache.Get () (GoKey.str "a") [] = (none, some "not found") ∧
    cacheAnyNil.loadFunc () (GoKey.str "a") 0 = ((none, none), 1) ∧
    Get goAny cacheAnyNil () (GoKey.str "a") (NewLoadable [] 0) =
      (Outcome.panicked,
       { store := [(GoKey.str "a", none)], source := 1, inFlight := [],
         trace := [Event.cacheGet () (GoKey.str "a"), Event.groupDo "a",
           Event.loadFunc () (GoKey.str "a"), Event.debugf () none,
           Event.cacheSet () (GoKey.str "a") none []] }) := by
  decide

/-- C3, the claim as stated fails: two calls of `Get("a")` on an empty
storage overlap (the second call makes its storage check, and misses, before
the first call begins, and returns after the first has returned), yet the
load function is invoked twice and the calls receive different values: the
storage check of line 42 is made outside `Do` and is not made again inside
it. -/
theorem overlapping_gets_load_twice :
    (runGets goInt cacheIntCounting () (GoKey.str "a") [1, 0]
        (startCalls (NewLoadable [] 0))).phase 0 = Phase.missed ∧
    (runGets goInt cacheIntCounting () (GoKey.str "a") [1, 0]
        (startCalls (NewLoadable [] 0))).phase 1 = Phase.missed ∧
    (runGets goInt cacheIntCounting () (GoKey.str "a") [1, 0, 0, 0, 0, 0, 1, 1, 1, 1]
        (startCalls (NewLoadable [] 0))).phase 0 = Phase.finished (Outcome.ret 1 none) ∧
    (runGets goInt cacheIntCounting () (GoKey.str "a") [1, 0, 0, 0, 0, 0, 1, 1, 1, 1]
        (startCalls (NewLoadable [] 0))).phase 1 = Phase.finished (Outcome.ret 2 none) ∧
    loads (runGets goInt cacheIntCounting () (GoKey.str "a") [1, 0, 0, 0, 0, 0, 1, 1, 1, 1]
        (startCalls (NewLoadable [] 0))).world = 2 := by
  decide

/-- C3 as amended: let `N >= 1` calls of `Get` for one key, and no others,
begin in a world where no load for the key is in flight, and let there be a
moment (after the schedule `before`) at which all `N` calls are inside `Do`.
Then, whatever the schedule `after` that follows, the load function has been
invoked at most once since the calls began, exactly once as soon as one call
has returned, and all the calls that have returned ended with the same
outcome; and four more rounds in which every call takes a step let all `N`
calls return. -/
theorem coalesced_inside_group (go : GoTypes K T) (c : LoadableCache Ctx K T E O I S L)
    (ctx : Ctx) (key : K) (N : Nat) (w0 : World Ctx K T O I S L)
    (before after : List Nat)
    (hN : 0 < N)
    (hidle : go.sprintfV key ∉ w0.inFlight)
    (hbefore : ∀ i ∈ before, i < N) (hafter : ∀ i ∈ after, i < N)
    (hinside : ∀ i, i < N →
      ((runGets go c ctx key before (startCalls w0)).phase i).inDo = true) :
    loads (runGets go c ctx key (before ++ after) (startCalls w0)).world ≤ loads w0 + 1 ∧
    (∀ i, i < N → ∀ o,
      (runGets go c ctx key (before ++ after) (startCalls w0)).phase i = Phase.finished o →
      loads (runGets go c ctx key (before ++ after) (startCalls w0)).world = loads w0 + 1) ∧
    (∀ i j, i < N → j < N → ∀ oi oj,
      (runGets go c ctx key (before ++ after) (startCalls w0)).phase i = Phase.finished oi →
      (runGets go c ctx key (before ++ after) (startCalls w0)).phase j = Phase.finished oj →
      oi = oj) ∧
    (∀ i, i < N → ∃ o,
      (runGets go c ctx key
        (before ++ after ++
          (List.range N ++ (List.range N ++ (List.range N ++ List.range N))))
        (startCalls w0)).phase i = Phase.finished o) := by
  have hreach := reach_run go c ctx key N w0 hidle before (startCalls w0)
    (reach_start _ N w0 hidle) hbefore
  obtain ⟨e, he, hshape⟩ := entered_shape _ N w0 _ hreach hN hinside
  have hrange : ∀ i ∈ List.range N, i < N := fun i hi => List.mem_range.mp hi
  have heR : e ∈ List.range N := List.mem_range.mpr he
  have hfinal := coalescing_run go c ctx key N w0 e _ (Or.inl hshape) after hafter
  rw [← runGets_append] at hfinal
  obtain ⟨h1, h2, h3⟩ := coalescing_facts N w0 e _ hfinal
  refine ⟨h1, h2, h3, ?_⟩
  intro i hi
  have hr0 : (∃ r, 0 ≤ r ∧
      Leading N w0 e r (runGets go c ctx key (before ++ after) (startCalls w0))) ∨
      ∃ v err, Resolved N w0 e v err
        (runGets go c ctx key (before ++ after) (startCalls w0)) := by
    rcases hfinal with ⟨r, hr⟩ | hr
    · exact Or.inl ⟨r, Nat.zero_le _, hr⟩
    · exact Or.inr hr
  have hr1 := coalescing_round go c ctx key N w0 e 0 _ hr0 (List.range N) hrange heR
  have hr2 := coalescing_round go c ctx key N w0 e 1 _ hr1 (List.range N) hrange heR
  have hr3 := coalescing_round go c ctx key N w0 e 2 _ hr2 (List.range N) hrange heR
  have hres : ∃ v err, Resolved N w0 e v err
      (runGets go c ctx key (List.range N) (runGets go c ctx key (List.range N)
        (runGets go c ctx key (List.range N)
          (runGets go c ctx key (before ++ after) (startCalls w0))))) := by
    rcases hr3 with ⟨r, hk, hl⟩ | hr
    · have := leading_rank N w0 e r _ hl
      omega
    · exact hr
  obtain ⟨v, err, hres⟩ := hres
  have hr4 := (resolved_run go c ctx key N w0 e v err (List.range N) _ hres hrange).2 i
    (Or.inl (List.mem_range.mpr hi))
  rw [runGets_append, runGets_append, runGets_append, runGets_append]
  exact ⟨_, hr4⟩

/-- Witness of the amended C3: three calls of `Get("a")` on an empty storage;
all three make their storage check, the call `1` registers in `Do` and the
calls `2` and `0` join it, and then they run in some order: one load, and
the value `1` for all three. -/
theorem coalesced_inside_group_witness :
    goInt.sprintfV (GoKey.str "a") ∉ ([] : List String) ∧
    (∀ i, i < 3 →
      ((runGets goInt cacheIntCounting () (GoKey.str "a") [0, 1, 2, 1, 2, 0]
        (startCalls (NewLoadable [] 0))).phase i).inDo = true) ∧
    (∀ i, i < 3 →
      (runGets goInt cacheIntCounting () (GoKey.str "a")
        ([0, 1, 2, 1, 2, 0] ++ [2, 1, 0, 1, 1, 0, 2, 1])
        (startCalls (NewLoadable [] 0))).phase i = Phase.finished (Outcome.ret 1 none)) ∧
    loads (runGets goInt cacheIntCounting () (GoKey.str "a")
      ([0, 1, 2, 1, 2, 0] ++ [2, 1, 0, 1, 1, 0, 2, 1])
      (startCalls (NewLoadable [] 0))).world = 1 ∧
    loads (runGets goInt cacheIntCounting () (GoKey.str "a")
      ([0, 1, 2, 1, 2, 0] ++ [2, 1, 0, 1, 1, 0, 2, 1])
      (startCalls (NewLoadable [] 0))).world
      ≤ loads (NewLoadable [] 0 : World Unit GoKey Int Nat Nat (List (GoKey × Int)) Nat) + 1 :=
  ⟨by decide, by decide, by decide, by decide,
   (coalesced_inside_group goInt cacheIntCounting () (GoKey.str "a") 3 (NewLoadable [] 0)
     [0, 1, 2, 1, 2, 0] [2, 1, 0, 1, 1, 0, 2, 1] (by decide) (by decide) (by decide)
     (by decide) (by decide)).1⟩

/-- C4 at `T = any`: the key `"b"` misses and the load function fails with
`(nil, "not found upstream")`; nothing is written to the storage, but `Get`
does not return the error: it panics on its last line. -/
theorem Get_failed_nil_panics :
    cacheAnyNotFound.cache.Get () (GoKey.str "b") [] = (none, some "not found") ∧
    cacheAnyNotFound.loadFunc () (GoKey.str "b") 0 = ((none, some "not found upstream"), 1) ∧
    Get goAny cacheAnyNotFound () (GoKey.str "b") (NewLoadable [] 0) =
      (Outcome.panicked,
       { store := [], source := 1, inFlight := [],
         trace := [Event.cacheGet () (GoKey.str "b"), Event.groupDo "b",
           Event.loadFunc () (GoKey.str "b")] }) := by
  decide

/-- C5 at `T = any`: the key misses, the load function answers `(nil, nil)`
and the storage `Set` that follows fails with `"read-only"`; `Get` does not
return `(nil, nil)`: it panics on its last line. -/
theorem Get_set_failed_nil_panics :
    cacheAnyReadOnly.cache.Get () (GoKey.int 5) [] = (none, some "not found") ∧
    cacheAnyReadOnly.loadFunc () (GoKey.int 5) 0 = ((none, none), 1) ∧
    cacheAnyReadOnly.cache.Set () (GoKey.int 5) none [] [] = (some "read-only", []) ∧
    (Get goAny cacheAnyReadOnly () (GoKey.int 5) (NewLoadable [] 0)).1 = Outcome.panicked := by
  decide

/-- C6, the claim as stated fails: at `T = int` the key misses, the load
function fails with `(5, "boom")`, and `Get` returns `5` beside the error,
not the zero value `0`. -/
theorem Get_failed_load_not_zero :
    cacheIntFailing.cache.Get () (GoKey.str "k") [] = (0, some "not found") ∧
    cacheIntFailing.loadFunc () (GoKey.str "k") 0 = ((5, some "boom"), 1) ∧
    (Get goInt cacheIntFailing () (GoKey.str "k") (NewLoadable [] 0)).1
      = Outcome.ret 5 (some "boom") ∧
    (Get goInt cacheIntFailing () (GoKey.str "k") (NewLoadable [] 0)).1
      ≠ Outcome.ret goInt.zero (some "boom") := by
  decide

/-- C6 as amended: on a miss whose load fails with `(d, e)`, where `d` is not
the nil interface value, `Get` returns `d` itself beside the error `e`. -/
theorem Get_failed_load_returns_data (go : GoTypes K T)
    (c : LoadableCache Ctx K T E O I S L) (ctx : Ctx) (key : K)
    (w : World Ctx K T O I S L) (o : T) (e0 : E) (d : T) (e : E) (l : L)
    (hget : c.cache.Get ctx key w.store = (o, some e0))
    (hidle : go.sprintfV key ∉ w.inFlight)
    (hload : c.loadFunc ctx key w.source = ((d, some e), l))
    (hval : go.isNilInterface d = false) :
    (Get go c ctx key w).1 = Outcome.ret d (some e) := by
  rw [Get_miss_failed go c ctx key w o e0 d e l hget hidle hload,
    assertReturn_value go d (some e) hval]

/-- Witness of the amended C6, at `T = int` with the load outcome `(5, "boom")`. -/
theorem Get_failed_load_returns_data_witness :
    cacheIntFailing.cache.Get () (GoKey.int 2) [] = (0, some "not found") ∧
    goInt.sprintfV (GoKey.int 2) ∉ ([] : List String) ∧
    cacheIntFailing.loadFunc () (GoKey.int 2) 0 = ((5, some "boom"), 1) ∧
    goInt.isNilInterface 5 = false ∧
    (Get goInt cacheIntFailing () (GoKey.int 2) (NewLoadable [] 0)).1
      = Outcome.ret 5 (some "boom") :=
  ⟨by decide, by decide, by decide, by decide,
   Get_failed_load_returns_data goInt cacheIntFailing () (GoKey.int 2) (NewLoadable [] 0)
     0 "not found" 5 "boom" 1 (by decide) (by decide) (by decide) (by decide)⟩

/-- C7 at `T = any`: the first load for `"r"` fails with `(7, "first")` and
`Get` returns it; the following `Get` invokes the load function again, which
fails with `(nil, "second")`, and instead of returning that outcome the
second `Get` panics on its last line. -/
theorem Get_retry_nil_panics :
    (Get goAny cacheAnyRetry () (GoKey.str "r") (NewLoadable [] 0)).1
      = Outcome.ret (some 7) (some "first") ∧
    (Get goAny cacheAnyRetry () (GoKey.str "r") (NewLoadable [] 0)).2.inFlight = [] ∧
    cacheAnyRetry.loadFunc () (GoKey.str "r")
        (Get goAny cacheAnyRetry () (GoKey.str "r") (NewLoadable [] 0)).2.source
      = ((none, some "second"), 2) ∧
    (Get goAny cacheAnyRetry () (GoKey.str "r")
        (Get goAny cacheAnyRetry () (GoKey.str "r") (NewLoadable [] 0)).2).1
      = Outcome.panicked ∧
    ((Get goAny cacheAnyRetry () (GoKey.str "r")
        (Get goAny cacheAnyRetry () (GoKey.str "r") (NewLoadable [] 0)).2).2.trace.filter
          Event.isLoad).length = 2 := by
  decide

/-- C8, the claim as stated fails: the integer `1` and the string `"1"` are
different keys with the same coalescing token, and `Get` enters the group
under the token `"1"` for both. -/
theorem loadToken_collision :
    GoKey.int 1 ≠ GoKey.str "1" ∧
    loadToken (GoKey.int 1) = loadToken (GoKey.str "1") ∧
    (Get goInt cacheIntLoading () (GoKey.int 1) (NewLoadable [] 0)).2.trace.filter Event.isGroup
      = [Event.groupDo "1"] ∧
    (Get goInt cacheIntLoading () (GoKey.str "1") (NewLoadable [] 0)).2.trace.filter Event.isGroup
      = [Event.groupDo "1"] := by
  decide

/-- C8 as amended: the token is a function of the key, and it tells apart any
two integer keys and any two string keys: two integer keys have the same
token exactly when they are the same integer, two string keys exactly when
they are the same string. -/
theorem loadToken_injective_per_kind :
    (∀ a b : Int, loadToken (GoKey.int a) = loadToken (GoKey.int b) ↔ a = b) ∧
    (∀ s t : String, loadToken (GoKey.str s) = loadToken (GoKey.str t) ↔ s = t) := by
  refine ⟨fun a b => ⟨fun h => formatInt_injective h, fun h => by rw [h]⟩,
    fun s t => ⟨fun h => h, fun h => by rw [h]⟩⟩

/-- C9 (pass-through): `Set`, `Delete`, `Invalidate` and `Clear` are each the
pass-through of the storage operation of the same name, called once with
the same context and arguments; its error is the result, the load function
is not invoked and the coalescing group is not touched. -/
theorem writes_pass_through (c : LoadableCache Ctx K T E O I S L) (ctx : Ctx)
    (key : K) (object : T) (options : List O) (invalidateOptions : List I)
    (w : World Ctx K T O I S L) :
    Set c ctx key object options w
      = passThrough (Event.cacheSet ctx key object options)
          (c.cache.Set ctx key object options) w ∧
    Delete c ctx key w
      = passThrough (Event.cacheDelete ctx key) (c.cache.Delete ctx key) w ∧
    Invalidate c ctx invalidateOptions w
      = passThrough (Event.cacheInvalidate ctx invalidateOptions)
          (c.cache.Invalidate ctx invalidateOptions) w ∧
    Clear c ctx w = passThrough (Event.cacheClear ctx) (c.cache.Clear ctx) w :=
  ⟨rfl, rfl, rfl, rfl⟩

/-- C10 fails on the code: on a miss, whenever the data the load function
hands back is the nil value of an interface type `T`, with an error or
without one, the type assertion on the last line of `Get` fails and `Get`
panics instead of returning. -/
theorem Get_panics_on_nil_interface (go : GoTypes K T)
    (c : LoadableCache Ctx K T E O I S L) (ctx : Ctx) (key : K)
    (w : World Ctx K T O I S L) (o : T) (e0 : E) (d : T) (err : Option E) (l : L)
    (hget : c.cache.Get ctx key w.store = (o, some e0))
    (hidle : go.sprintfV key ∉ w.inFlight)
    (hload : c.loadFunc ctx key w.source = ((d, err), l))
    (hnil : go.isNilInterface d = true) :
    (Get go c ctx key w).1 = Outcome.panicked := by
  cases err with
  | none =>
    rw [Get_miss_loaded go c ctx key w o e0 d l hget hidle hload,
      assertReturn_nil go d none hnil]
  | some e =>
    rw [Get_miss_failed go c ctx key w o e0 d e l hget hidle hload,
      assertReturn_nil go d (some e) hnil]

/-- Witness of C10's failure, at `T = any` with the load outcome
`(nil, "timeout")`. -/
theorem Get_panics_on_nil_interface_witness :
    cacheAnyTimeout.cache.Get () (GoKey.int 3) [] = (none, some "not found") ∧
    goAny.sprintfV (GoKey.int 3) ∉ ([] : List String) ∧
    cacheAnyTimeout.loadFunc () (GoKey.int 3) 0 = ((none, some "timeout"), 1) ∧
    goAny.isNilInterface none = true ∧
    (Get goAny cacheAnyTimeout () (GoKey.int 3) (NewLoadable [] 0)).1 = Outcome.panicked :=
  ⟨by decide, by decide, by decide, by decide,
   Get_panics_on_nil_interface goAny cacheAnyTimeout () (GoKey.int 3) (NewLoadable [] 0)
     none "not found" none (some "timeout") 1 (by decide) (by decide) (by decide) (by decide)⟩

end Claims

end Loadable
